import Mathlib

/-!
# Project Onramp resume matcher: the scoring pipeline of `src/public/src/App.js`

A shallow embedding of `matchResumesToJob` (App.js lines 30-152) and of the JavaScript
built-ins it calls, followed by the properties proved about it.

Conventions of the embedding.

* JavaScript strings are Lean strings (sequences of Unicode scalar values); lists of
  characters are used internally.
* JavaScript numbers are exact rationals: IEEE-754 rounding, overflow to `Infinity`
  and the sign of zero are outside the embedding.  `NaN` and the two infinities appear
  only in the result of a numeric coercion (`JsNumber`).
* `undefined` is `none` in an `Option`.
* What the environment does (whether a file can be read, what `fetch` answers, what
  `Math.random()` draws) is part of the input of the run, one record per uploaded file.
-/

namespace ResumeMatcher

/-! ## Strings: `String.prototype.trim` and the two global `replace` calls -/

/-- The code points removed by `String.prototype.trim`: ECMAScript `WhiteSpace`
(TAB, VT, FF, SP, NBSP, ZWNBSP and the Unicode space separators) and `LineTerminator`
(LF, CR, LS, PS). -/
def isJsWhiteSpace (c : Char) : Bool :=
  c.val = 0x09 || c.val = 0x0A || c.val = 0x0B || c.val = 0x0C || c.val = 0x0D ||
  c.val = 0x20 || c.val = 0xA0 || c.val = 0x1680 ||
  (0x2000 ≤ c.val && c.val ≤ 0x200A) ||
  c.val = 0x2028 || c.val = 0x2029 || c.val = 0x202F || c.val = 0x205F ||
  c.val = 0x3000 || c.val = 0xFEFF

/-- The method `trim` on a list of characters: white space is dropped at both ends. -/
def trimChars (cs : List Char) : List Char :=
  ((cs.dropWhile isJsWhiteSpace).reverse.dropWhile isJsWhiteSpace).reverse

/-- The method `String.prototype.trim`. -/
def jsTrim (s : String) : String := String.mk (trimChars s.data)

/-- The call `text.replace(/PAT\n?/g, "")` for a literal pattern `PAT`, as one left-to-right
scan.  `skip` counts the characters of the current match that are still to be dropped.  At a
position where `pat` starts, the match is `pat` followed by one line feed when there is one
(the quantifier `?` is greedy), the whole match is dropped and the scan resumes behind it;
elsewhere the character is kept. -/
def removeFence (pat : List Char) : Nat → List Char → List Char
  | _, [] => []
  | skip + 1, _ :: cs => removeFence pat skip cs
  | 0, c :: cs =>
    if pat.isPrefixOf (c :: cs) then
      if ['\n'].isPrefixOf ((c :: cs).drop pat.length) then
        removeFence pat pat.length cs
      else
        removeFence pat (pat.length - 1) cs
    else
      c :: removeFence pat 0 cs

/-- App.js line 98:
`responseText.replace(/```json\n?/g, "").replace(/```\n?/g, "").trim()`. -/
def cleanResponse (responseText : String) : String :=
  String.mk (trimChars (removeFence "```".data 0 (removeFence "```json".data 0 responseText.data)))

/-- The backtick, the character of a code fence. -/
def tick : Char := Char.ofNat 96

/-! ## JSON values and `JSON.parse` -/

/-- The values `JSON.parse` can return.  An object is the list of its own properties, each
key once. -/
inductive Json where
  | null
  | bool (b : Bool)
  | num (q : ℚ)
  | str (s : String)
  | arr (items : List Json)
  | obj (fields : List (String × Json))

mutual
/-- Decision procedure for equality of JSON values. -/
def Json.decEq : (a b : Json) → Decidable (a = b)
  | .null, .null => isTrue rfl
  | .bool a, .bool b =>
    if h : a = b then isTrue (by rw [h]) else isFalse (fun e => h (by cases e; rfl))
  | .num a, .num b =>
    if h : a = b then isTrue (by rw [h]) else isFalse (fun e => h (by cases e; rfl))
  | .str a, .str b =>
    if h : a = b then isTrue (by rw [h]) else isFalse (fun e => h (by cases e; rfl))
  | .arr a, .arr b =>
    match Json.decEqList a b with
    | isTrue h => isTrue (by rw [h])
    | isFalse h => isFalse (fun e => h (by cases e; rfl))
  | .obj a, .obj b =>
    match Json.decEqFields a b with
    | isTrue h => isTrue (by rw [h])
    | isFalse h => isFalse (fun e => h (by cases e; rfl))
  | .null, .bool _ | .null, .num _ | .null, .str _ | .null, .arr _ | .null, .obj _
  | .bool _, .null | .bool _, .num _ | .bool _, .str _ | .bool _, .arr _ | .bool _, .obj _
  | .num _, .null | .num _, .bool _ | .num _, .str _ | .num _, .arr _ | .num _, .obj _
  | .str _, .null | .str _, .bool _ | .str _, .num _ | .str _, .arr _ | .str _, .obj _
  | .arr _, .null | .arr _, .bool _ | .arr _, .num _ | .arr _, .str _ | .arr _, .obj _
  | .obj _, .null | .obj _, .bool _ | .obj _, .num _ | .obj _, .str _ | .obj _, .arr _ =>
    isFalse nofun
/-- Decision procedure for equality of lists of JSON values. -/
def Json.decEqList : (a b : List Json) → Decidable (a = b)
  | [], [] => isTrue rfl
  | [], _ :: _ | _ :: _, [] => isFalse nofun
  | x :: xs, y :: ys =>
    match Json.decEq x y, Json.decEqList xs ys with
    | isTrue h1, isTrue h2 => isTrue (by rw [h1, h2])
    | isFalse h1, _ => isFalse (fun e => h1 (by cases e; rfl))
    | _, isFalse h2 => isFalse (fun e => h2 (by cases e; rfl))
/-- Decision procedure for equality of property lists. -/
def Json.decEqFields : (a b : List (String × Json)) → Decidable (a = b)
  | [], [] => isTrue rfl
  | [], _ :: _ | _ :: _, [] => isFalse nofun
  | (k, x) :: xs, (l, y) :: ys =>
    if hk : k = l then
      match Json.decEq x y, Json.decEqFields xs ys with
      | isTrue h1, isTrue h2 => isTrue (by rw [hk, h1, h2])
      | isFalse h1, _ => isFalse (fun e => h1 (by cases e; rfl))
      | _, isFalse h2 => isFalse (fun e => h2 (by cases e; rfl))
    else isFalse (fun e => hk (by cases e; rfl))
end

instance : DecidableEq Json := Json.decEq

/-- The tokens of the JSON grammar; `val` is a number or one of `true`, `false`, `null`. -/
inductive Token where
  | lbrace
  | rbrace
  | lbrack
  | rbrack
  | colon
  | comma
  | str (s : String)
  | val (v : Json)

/-- Where the scanner is.  In a string the UTF-16 code units read so far are kept, most
recent first; `inWord` holds the characters of a number or literal, most recent first. -/
inductive LexMode where
  | start
  | inStr (acc : List Nat)
  | inEsc (acc : List Nat)
  | inUni (acc : List Nat) (hex : List Char)
  | inWord (acc : List Char)

/-- JSON white space: tab, line feed, carriage return, space. -/
def isJsonSpace (c : Char) : Bool :=
  c = '\t' || c = '\n' || c = '\r' || c = ' '

/-- The characters numbers and the three literals are made of. -/
def isWordChar (c : Char) : Bool :=
  c.isAlphanum || c = '+' || c = '-' || c = '.'

/-- The value of a hexadecimal digit. -/
def hexValue (c : Char) : Option Nat :=
  if '0' ≤ c ∧ c ≤ '9' then some (c.toNat - '0'.toNat)
  else if 'a' ≤ c ∧ c ≤ 'f' then some (c.toNat - 'a'.toNat + 10)
  else if 'A' ≤ c ∧ c ≤ 'F' then some (c.toNat - 'A'.toNat + 10)
  else none

/-- The number written by a list of decimal digits. -/
def digitsToNat (ds : List Char) : Nat :=
  ds.foldl (fun n c => 10 * n + (c.toNat - '0'.toNat)) 0

/-- UTF-16 code units to characters: a high surrogate followed by a low one is one
character; a surrogate on its own, which a Lean string cannot hold, becomes U+FFFD. -/
def decodeUnits : List Nat → List Char
  | [] => []
  | [u] => [if 0xD800 ≤ u ∧ u < 0xE000 then Char.ofNat 0xFFFD else Char.ofNat u]
  | u :: v :: rest =>
    if 0xD800 ≤ u ∧ u < 0xDC00 ∧ 0xDC00 ≤ v ∧ v < 0xE000 then
      Char.ofNat (0x10000 + (u - 0xD800) * 0x400 + (v - 0xDC00)) :: decodeUnits rest
    else
      (if 0xD800 ≤ u ∧ u < 0xE000 then Char.ofNat 0xFFFD else Char.ofNat u)
        :: decodeUnits (v :: rest)

/-- The exponent part of a JSON number, `[eE][+-]?[0-9]+`, or nothing. -/
def parseExponent : List Char → Option Int
  | [] => some 0
  | e :: rest =>
    if e = 'e' ∨ e = 'E' then
      match rest with
      | '-' :: ds =>
        if ds ≠ [] ∧ ds.all Char.isDigit then some (-(digitsToNat ds : Int)) else none
      | '+' :: ds =>
        if ds ≠ [] ∧ ds.all Char.isDigit then some (digitsToNat ds : Int) else none
      | ds =>
        if ds ≠ [] ∧ ds.all Char.isDigit then some (digitsToNat ds : Int) else none
    else none

/-- The fraction part `.[0-9]+` of a JSON number, or nothing, and what follows it. -/
def parseFraction : List Char → Option (List Char × List Char)
  | '.' :: rest =>
    let p := rest.span Char.isDigit
    if p.1 = [] then none else some p
  | cs => some ([], cs)

/-- The JSON number grammar `-?(0|[1-9][0-9]*)(.[0-9]+)?([eE][+-]?[0-9]+)?` and the exact
value of the number written. -/
def parseNumber (cs : List Char) : Option ℚ :=
  let negative := cs.head? = some '-'
  let body := if negative then cs.drop 1 else cs
  let ip := body.span Char.isDigit
  if ip.1 = [] ∨ (1 < ip.1.length ∧ ip.1.head? = some '0') then none
  else
    match parseFraction ip.2 with
    | none => none
    | some fp =>
      match parseExponent fp.2 with
      | none => none
      | some e =>
        let m : Int := if negative then -(digitsToNat (ip.1 ++ fp.1) : Int)
          else (digitsToNat (ip.1 ++ fp.1) : Int)
        let t : Int := e - fp.1.length
        if 0 ≤ t then some (mkRat (m * 10 ^ t.toNat) 1)
        else some (mkRat m (10 ^ (-t).toNat))

/-- A maximal run of word characters is one of the literals or a number. -/
def parseWord (cs : List Char) : Option Json :=
  if cs = "true".data then some (.bool true)
  else if cs = "false".data then some (.bool false)
  else if cs = "null".data then some .null
  else (parseNumber cs).map Json.num

/-- One character outside strings and words. -/
def lexStart (toks : List Token) (c : Char) : Option (LexMode × List Token) :=
  if isJsonSpace c then some (.start, toks)
  else if c = '{' then some (.start, .lbrace :: toks)
  else if c = '}' then some (.start, .rbrace :: toks)
  else if c = '[' then some (.start, .lbrack :: toks)
  else if c = ']' then some (.start, .rbrack :: toks)
  else if c = ':' then some (.start, .colon :: toks)
  else if c = ',' then some (.start, .comma :: toks)
  else if c = '"' then some (.inStr [], toks)
  else if isWordChar c then some (.inWord [c], toks)
  else none

/-- One step of the scanner; the tokens are collected most recent first. -/
def lexStep : LexMode × List Token → Char → Option (LexMode × List Token)
  | (.start, toks), c => lexStart toks c
  | (.inWord acc, toks), c =>
    if isWordChar c then some (.inWord (c :: acc), toks)
    else
      match parseWord acc.reverse with
      | none => none
      | some v => lexStart (.val v :: toks) c
  | (.inStr acc, toks), c =>
    if c = '"' then some (.start, .str (String.mk (decodeUnits acc.reverse)) :: toks)
    else if c = '\\' then some (.inEsc acc, toks)
    else if c.toNat < 0x20 then none
    else some (.inStr (c.toNat :: acc), toks)
  | (.inEsc acc, toks), c =>
    if c = '"' then some (.inStr (0x22 :: acc), toks)
    else if c = '\\' then some (.inStr (0x5C :: acc), toks)
    else if c = '/' then some (.inStr (0x2F :: acc), toks)
    else if c = 'b' then some (.inStr (0x08 :: acc), toks)
    else if c = 'f' then some (.inStr (0x0C :: acc), toks)
    else if c = 'n' then some (.inStr (0x0A :: acc), toks)
    else if c = 'r' then some (.inStr (0x0D :: acc), toks)
    else if c = 't' then some (.inStr (0x09 :: acc), toks)
    else if c = 'u' then some (.inUni acc [], toks)
    else none
  | (.inUni acc hex, toks), c =>
    match hexValue c with
    | none => none
    | some _ =>
      if hex.length = 3 then
        some (.inStr (((c :: hex).reverse.filterMap hexValue).foldl (fun n d => 16 * n + d) 0 :: acc),
          toks)
      else some (.inUni acc (c :: hex), toks)

/-- The scanner over a whole text. -/
def lexAll : LexMode × List Token → List Char → Option (List Token)
  | (.start, toks), [] => some toks.reverse
  | (.inWord acc, toks), [] => (parseWord acc.reverse).map (fun v => (Token.val v :: toks).reverse)
  | (_, _), [] => none
  | st, c :: cs =>
    match lexStep st c with
    | none => none
    | some st2 => lexAll st2 cs

/-- `CreateDataProperty`: a repeated key overwrites the value stored before. -/
def setField (fields : List (String × Json)) (k : String) (v : Json) : List (String × Json) :=
  if fields.any (fun p => p.1 == k) then fields.map (fun p => if p.1 == k then (p.1, v) else p)
  else fields ++ [(k, v)]

/-- An array or object under construction: the items read so far, most recent first, or the
properties read so far and the key waiting for its value. -/
inductive Frame where
  | arr (items : List Json)
  | obj (fields : List (String × Json)) (key : Option String)

/-- What the grammar allows next. -/
inductive Phase where
  | value
  | valueOrClose
  | keyOrClose
  | key
  | colon
  | commaOrClose
  | done (v : Json)

/-- A finished value goes into the innermost open container, or is the result. -/
def complete (v : Json) : List Frame → Option (List Frame × Phase)
  | [] => some ([], .done v)
  | .arr items :: rest => some (.arr (v :: items) :: rest, .commaOrClose)
  | .obj fields (some k) :: rest => some (.obj (setField fields k v) none :: rest, .commaOrClose)
  | .obj _ none :: _ => none

/-- One token of the JSON grammar. -/
def parseStep : List Frame × Phase → Token → Option (List Frame × Phase)
  | (stack, .value), .val v => complete v stack
  | (stack, .value), .str s => complete (.str s) stack
  | (stack, .value), .lbrack => some (.arr [] :: stack, .valueOrClose)
  | (stack, .value), .lbrace => some (.obj [] none :: stack, .keyOrClose)
  | (stack, .valueOrClose), .val v => complete v stack
  | (stack, .valueOrClose), .str s => complete (.str s) stack
  | (stack, .valueOrClose), .lbrack => some (.arr [] :: stack, .valueOrClose)
  | (stack, .valueOrClose), .lbrace => some (.obj [] none :: stack, .keyOrClose)
  | (.arr items :: rest, .valueOrClose), .rbrack => complete (.arr items.reverse) rest
  | (.obj fields none :: rest, .keyOrClose), .str k => some (.obj fields (some k) :: rest, .colon)
  | (.obj fields none :: rest, .keyOrClose), .rbrace => complete (.obj fields) rest
  | (.obj fields none :: rest, .key), .str k => some (.obj fields (some k) :: rest, .colon)
  | (stack, .colon), .colon => some (stack, .value)
  | (.arr items :: rest, .commaOrClose), .comma => some (.arr items :: rest, .value)
  | (.obj fields none :: rest, .commaOrClose), .comma => some (.obj fields none :: rest, .key)
  | (.arr items :: rest, .commaOrClose), .rbrack => complete (.arr items.reverse) rest
  | (.obj fields none :: rest, .commaOrClose), .rbrace => complete (.obj fields) rest
  | _, _ => none

/-- The grammar over a whole token list: exactly one value. -/
def parseTokens : List Frame × Phase → List Token → Option Json
  | (_, .done v), [] => some v
  | _, [] => none
  | st, t :: ts =>
    match parseStep st t with
    | none => none
    | some st2 => parseTokens st2 ts

/-- The function `JSON.parse` on a string: `none` is the `SyntaxError` it throws. -/
def JSON_parse (text : String) : Option Json :=
  match lexAll (.start, []) text.data with
  | none => none
  | some toks => parseTokens ([], .value) toks

/-! ## Numeric coercion: what `b.score - a.score` computes -/

/-- The result of a numeric coercion or of a subtraction. -/
inductive JsNumber where
  | nan
  | posInf
  | negInf
  | fin (q : ℚ)
  deriving DecidableEq

/-- Digits of a literal in radix 2, 8 or 16 (`0b`, `0o`, `0x`). -/
def radixNumber (radix : Nat) (ds : List Char) : JsNumber :=
  if ds ≠ [] ∧ ds.all (fun c => (hexValue c).any (fun d => d < radix)) then
    .fin (((ds.filterMap hexValue).foldl (fun n d => radix * n + d) 0 : Nat) : ℚ)
  else .nan

/-- `StrUnsignedDecimalLiteral` without `Infinity`: digits with an optional fraction, or a
fraction alone, and an optional exponent. -/
def unsignedDecimal (cs : List Char) : Option ℚ :=
  let ip := cs.span Char.isDigit
  let fp : List Char × List Char :=
    match ip.2 with
    | '.' :: rest => rest.span Char.isDigit
    | rest => ([], rest)
  if ip.1 = [] ∧ fp.1 = [] then none
  else
    match parseExponent fp.2 with
    | none => none
    | some e =>
      let m : Int := (digitsToNat (ip.1 ++ fp.1) : Int)
      let t : Int := e - fp.1.length
      if 0 ≤ t then some (mkRat (m * 10 ^ t.toNat) 1)
      else some (mkRat m (10 ^ (-t).toNat))

/-- `StringToNumber`: white space is trimmed; the empty string is 0; then `Infinity` with
an optional sign, a binary, octal or hexadecimal integer, or a decimal literal with an
optional sign; anything else is `NaN`. -/
def stringToNumber (s : String) : JsNumber :=
  let body := trimChars s.data
  if body = [] then .fin 0
  else if body = "Infinity".data ∨ body = "+Infinity".data then .posInf
  else if body = "-Infinity".data then .negInf
  else if "0x".data.isPrefixOf body ∨ "0X".data.isPrefixOf body then radixNumber 16 (body.drop 2)
  else if "0o".data.isPrefixOf body ∨ "0O".data.isPrefixOf body then radixNumber 8 (body.drop 2)
  else if "0b".data.isPrefixOf body ∨ "0B".data.isPrefixOf body then radixNumber 2 (body.drop 2)
  else
    match body with
    | '-' :: rest => ((unsignedDecimal rest).map (fun q => JsNumber.fin (-q))).getD .nan
    | '+' :: rest => ((unsignedDecimal rest).map JsNumber.fin).getD .nan
    | _ => ((unsignedDecimal body).map JsNumber.fin).getD .nan

mutual
/-- `ToNumber` of a parsed value when the conversion to a primitive does not throw.  An
array is converted through `join(",")`, an object through `"[object Object]"`. -/
def Json.toNumber : Json → JsNumber
  | .null => .fin 0
  | .bool b => .fin (if b then 1 else 0)
  | .num q => .fin q
  | .str s => stringToNumber s
  | .arr items => Json.joinNumber items
  | .obj _ => .nan
/-- `ToNumber` of `items.join(",")`: the empty string for no item; for one item its own
string (empty for `null`); a text with a comma, hence `NaN`, for more. -/
def Json.joinNumber : List Json → JsNumber
  | [] => .fin 0
  | [.null] => .fin 0
  | [.bool _] => .nan
  | [.num q] => .fin q
  | [.str s] => stringToNumber s
  | [.arr inner] => Json.joinNumber inner
  | [.obj _] => .nan
  | _ :: _ :: _ => .nan
end

mutual
/-- Whether converting the value to a primitive throws a `TypeError`.  Parsed values hold no
functions, so `OrdinaryToPrimitive` fails on an object exactly when an own property shadows
`Object.prototype.toString`; an array throws when `join` meets such an object. -/
def Json.toPrimitiveThrows : Json → Bool
  | .arr items => Json.joinThrows items
  | .obj fields => fields.any (fun p => p.1 == "toString")
  | _ => false
/-- Whether `join` throws on one of the items. -/
def Json.joinThrows : List Json → Bool
  | [] => false
  | x :: xs => Json.toPrimitiveThrows x || Json.joinThrows xs
end

/-- The operator `-` on two numbers. -/
def jsSub : JsNumber → JsNumber → JsNumber
  | .nan, _ => .nan
  | _, .nan => .nan
  | .fin a, .fin b => .fin (a - b)
  | .fin _, .posInf => .negInf
  | .fin _, .negInf => .posInf
  | .posInf, .posInf => .nan
  | .posInf, _ => .posInf
  | .negInf, .negInf => .nan
  | .negInf, _ => .negInf

/-- Whether a comparator result is greater than zero; `NaN` counts as `+0` in `sort`. -/
def JsNumber.isPositive : JsNumber → Bool
  | .fin q => decide (0 < q)
  | .posInf => true
  | _ => false

/-! ## Results -/

/-- The object pushed onto `results` (App.js lines 102-108 and the three fallbacks). `score`
and `reasoning` are whatever the reply holds, `none` when the property is missing. -/
structure MatchResult where
  fileName : String
  score : Option Json
  reasoning : Option Json
  keyStrengths : Json
  concerns : Json
  deriving DecidableEq

/-- Truthiness of a value, as tested by `||`. -/
def isTruthy : Option Json → Bool
  | none => false
  | some .null => false
  | some (.bool b) => b
  | some (.num q) => decide (q ≠ 0)
  | some (.str s) => decide (s ≠ "")
  | some (.arr _) => true
  | some (.obj _) => true

/-- The expression `value || []`. -/
def orEmptyList (value : Option Json) : Json :=
  match value with
  | some v => if isTruthy (some v) then v else .arr []
  | none => .arr []

/-- The property access `analysis.key` on a parsed value other than `null`: an own property
of an object, `undefined` otherwise (none of the four names read here is inherited). -/
def property (analysis : Json) (key : String) : Option Json :=
  match analysis with
  | .obj fields => fields.lookup key
  | _ => none

/-- The result pushed in the inner `catch (parseError)`, App.js lines 111-117. -/
def parseDegraded (fileName : String) : MatchResult :=
  { fileName := fileName
    score := some (.num 50)
    reasoning :=
      some (.str "Unable to fully analyze this resume, but basic matching suggests moderate fit.")
    keyStrengths := .arr [.str "Resume uploaded successfully"]
    concerns := .arr [.str "Analysis incomplete"] }

/-- App.js lines 98-118: clean the reply, parse it and push.  `JSON.parse` throwing, and
`analysis.score` throwing on `null`, both end in the inner `catch`. -/
def interpretReply (fileName responseText : String) : MatchResult :=
  match JSON_parse (cleanResponse responseText) with
  | none => parseDegraded fileName
  | some .null => parseDegraded fileName
  | some analysis =>
    { fileName := fileName
      score := property analysis "score"
      reasoning := property analysis "reasoning"
      keyStrengths := orEmptyList (property analysis "key_strengths")
      concerns := orEmptyList (property analysis "concerns") }

/-- The score `Math.floor(Math.random() * 40) + 30` of App.js line 123, for the draw `r`. -/
def serviceUnavailableScore (r : ℚ) : Int := ⌊r * 40⌋ + 30

/-- The score `Math.floor(Math.random() * 60) + 20` of App.js line 131, for the draw `r`. -/
def transportFailureScore (r : ℚ) : Int := ⌊r * 60⌋ + 20

/-- The result pushed when `response.ok` is false, App.js lines 121-127. -/
def serviceUnavailable (fileName : String) (r : ℚ) : MatchResult :=
  { fileName := fileName
    score := some (.num (serviceUnavailableScore r))
    reasoning := some (.str "API unavailable - this is a demo score based on filename matching.")
    keyStrengths := .arr [.str "File processed"]
    concerns := .arr [.str "Full analysis pending"] }

/-- The result pushed in `catch (apiError)`, App.js lines 131-138. -/
def transportFailure (fileName : String) (r : ℚ) : MatchResult :=
  let demoScore := transportFailureScore r
  { fileName := fileName
    score := some (.num demoScore)
    reasoning := some (.str ("Demo analysis: This student shows "
      ++ (if demoScore > 60 then "strong" else if demoScore > 40 then "moderate" else "basic")
      ++ " potential for the role based on available information."))
    keyStrengths :=
      .arr [.str "Educational background", .str "Motivated student", .str "Program participant"]
    concerns := if demoScore < 50 then .arr [.str "May need additional support"] else .arr [] }

/-! ## The environment of a run -/

/-- What `FileReader.readAsText` does for a file.  `extractTextFromFile` (App.js lines 18-27)
resolves its promise in `onload` and installs no other handler: when the read fails no
`load` event arrives and the promise is never settled (`silent`).  `threw` is the rejected
promise that the `catch` of lines 48-51 handles. -/
inductive ReadOutcome where
  | loaded (text : String)
  | threw
  | silent
  deriving DecidableEq

/-- What the request of App.js lines 55-95 does: an ok response whose body holds the text
`data.content[0].text`; a response with `ok` false; an exception (`fetch` rejects, the body
is not JSON, or it has no such text), caught by `catch (apiError)`; or a promise that is
never settled.  On the two fallback paths `Math.random()` is read once: `draw`. -/
inductive OracleOutcome where
  | replied (text : String)
  | notOk (draw : ℚ)
  | failed (draw : ℚ)
  | pending
  deriving DecidableEq

/-- One uploaded file with what the environment does for it during the run. -/
structure ResumeFile where
  name : String
  read : ReadOutcome
  oracle : OracleOutcome
  deriving DecidableEq

/-- The React state of `App` (App.js lines 5-9). -/
structure AppState where
  jobDescription : String
  resumeFiles : List ResumeFile
  /-- The state variable `matches` (a reserved word in Lean). -/
  storedMatches : List MatchResult
  loading : Bool
  topCount : Nat
  deriving DecidableEq

/-- What a run does to the outside, in order. -/
inductive Effect where
  | alert (message : String)
  | setLoading (value : Bool)
  | consoleLog (message : String)
  | fetch (content : String)
  | setMatches (results : List MatchResult)
  | consoleError (message : String)
  deriving DecidableEq

/-- The outcome of a call of `matchResumesToJob`: its effects, the state they leave, and
whether the call ever completes. -/
structure Run where
  effects : List Effect
  state : AppState
  returned : Bool
  deriving DecidableEq

/-- The message content of the request, App.js lines 66-87. -/
def promptContent (jobDescription resumeText : String) : String :=
  "You are helping Project Onramp match students to life sciences internships. \n\nJob Description:\n"
  ++ jobDescription ++ "\n\nStudent Resume:\n" ++ resumeText
  ++ "\n\nAnalyze this student's fit for the internship. Consider:\n- Relevant coursework and academic background\n- Skills that match the role\n- Potential and motivation (especially important for underrepresented students)\n- Life sciences interest and experience\n- Any leadership or extracurricular activities\n\nRespond with ONLY a JSON object in this format:\n\x7b\n  \"score\": [number from 0-100],\n  \"reasoning\": \"[2-3 sentences explaining the match]\",\n  \"key_strengths\": [\"strength1\", \"strength2\", \"strength3\"],\n  \"concerns\": [\"concern1 if any\"]\n\x7d"

/-- The body of the `for` loop for one file, App.js lines 42-139: the effects, and the
result pushed, `none` when an awaited promise is never settled. -/
def processFile (jobDescription : String) (file : ResumeFile) : List Effect × Option MatchResult :=
  match file.read with
  | .silent => ([], none)
  | .loaded text =>
    match file.oracle with
    | .pending => ([.fetch (promptContent jobDescription text)], none)
    | .replied reply =>
      ([.fetch (promptContent jobDescription text)], some (interpretReply file.name reply))
    | .notOk r =>
      ([.fetch (promptContent jobDescription text)], some (serviceUnavailable file.name r))
    | .failed r =>
      ([.fetch (promptContent jobDescription text)], some (transportFailure file.name r))
  | .threw =>
    let log := Effect.consoleLog
      ("Could not read file " ++ file.name ++ ", using filename for matching")
    match file.oracle with
    | .pending => ([log, .fetch (promptContent jobDescription file.name)], none)
    | .replied reply =>
      ([log, .fetch (promptContent jobDescription file.name)],
        some (interpretReply file.name reply))
    | .notOk r =>
      ([log, .fetch (promptContent jobDescription file.name)],
        some (serviceUnavailable file.name r))
    | .failed r =>
      ([log, .fetch (promptContent jobDescription file.name)],
        some (transportFailure file.name r))

/-- The `for` loop of App.js lines 41-140: the effects and the collected `results`, in
input order; `none` when the loop stops at a promise that is never settled. -/
def processFiles (jobDescription : String) :
    List ResumeFile → List Effect × Option (List MatchResult)
  | [] => ([], some [])
  | file :: files =>
    match processFile jobDescription file with
    | (fx, none) => (fx, none)
    | (fx, some r) =>
      ((fx ++ (processFiles jobDescription files).1),
        (processFiles jobDescription files).2.map (fun rs => r :: rs))

/-- Whether `ToNumber` of the score of a result throws. -/
def scoreThrows (r : MatchResult) : Bool :=
  match r.score with
  | none => false
  | some v => v.toPrimitiveThrows

/-- `ToNumber` of the score of a result; `undefined` is `NaN`. -/
def scoreNumber (r : MatchResult) : JsNumber :=
  match r.score with
  | none => .nan
  | some v => v.toNumber

/-- The comparator `(a, b) => b.score - a.score` of App.js line 143. -/
def compareFn (a b : MatchResult) : JsNumber := jsSub (scoreNumber b) (scoreNumber a)

/-- The order `sort` establishes: `a` may stay in front of `b` unless the comparator is
positive. -/
def staysBefore (a b : MatchResult) : Prop := (compareFn a b).isPositive = false

instance : DecidableRel staysBefore := fun a b => by unfold staysBefore; infer_instance

/-- The call `results.sort((a, b) => b.score - a.score)`, App.js line 143; `none` is an
exception thrown by the comparator.  `Array.prototype.sort` is stable and, for a comparator
that is a consistent order, its result is fixed by the language: it is computed here by
insertion.  With fewer than two elements the comparator is not called; with two or more
every element is passed to it, so the call throws exactly when the coercion of some score
throws.  (For a comparator that is not a consistent order, as with a score that is `NaN`,
the language leaves the order to the engine; insertion is then one possible engine.) -/
def sortResults (results : List MatchResult) : Option (List MatchResult) :=
  if results.length < 2 then some results
  else if results.any scoreThrows then none
  else some (results.insertionSort staysBefore)

/-- The argument of `setMatches`, App.js lines 143-144: `sort`, then `slice(0, topCount)`. -/
def rankedMatches (results : List MatchResult) (topCount : Nat) : Option (List MatchResult) :=
  (sortResults results).map (fun sorted => sorted.take topCount)

/-- The function `matchResumesToJob`, App.js lines 30-152. -/
def matchResumesToJob (st : AppState) : Run :=
  if jsTrim st.jobDescription = "" ∨ st.resumeFiles.length = 0 then
    { effects := [.alert "Please provide both job description and resume files"]
      state := st
      returned := true }
  else
    match processFiles st.jobDescription st.resumeFiles with
    | (fx, none) =>
      { effects := .setLoading true :: fx
        state := { st with loading := true }
        returned := false }
    | (fx, some results) =>
      match rankedMatches results st.topCount with
      | some top =>
        { effects := .setLoading true :: fx ++ [.setMatches top, .setLoading false]
          state := { st with storedMatches := top, loading := false }
          returned := true }
      | none =>
        { effects := .setLoading true :: fx ++
            [.consoleError "Error matching resumes:",
             .alert "Error processing resumes. Please try again.", .setLoading false]
          state := { st with loading := false }
          returned := true }

/-- The integer part of a numeric score (0 when the score is not a number); used to state the
order of results whose scores are integers. -/
def integerScore (r : MatchResult) : ℤ :=
  match r.score with
  | some (.num q) => ⌊q⌋
  | _ => 0

/-! ## Theorems -/

/-! ### Facts about the scan -/

/-- A pattern without the character `x` starts at `s ++ x :: t` exactly when it starts at `s`. -/
theorem isPrefixOf_append_of_not_mem (x : Char) (t : List Char) :
    ∀ (pat s : List Char), x ∉ pat →
      pat.isPrefixOf (s ++ x :: t) = pat.isPrefixOf s
  | [], s, _ => by simp
  | p :: ps, [], h => by
    have hpx : ¬ p = x := fun e => h (by simp [e])
    simp [List.isPrefixOf, hpx]
  | p :: ps, c :: cs, h => by
    have ih := isPrefixOf_append_of_not_mem x t ps cs (fun hm => h (List.mem_cons_of_mem _ hm))
    simp only [List.cons_append, List.isPrefixOf]
    rw [show cs.append (x :: t) = cs ++ x :: t from rfl, ih]

/-- A pattern that starts a text is not longer than the text. -/
theorem length_le_of_isPrefixOf :
    ∀ (pat s : List Char), pat.isPrefixOf s = true → pat.length ≤ s.length
  | [], _, _ => by simp
  | _ :: _, [], h => by simp [List.isPrefixOf] at h
  | p :: ps, c :: cs, h => by
    simp only [List.isPrefixOf, Bool.and_eq_true] at h
    have := length_le_of_isPrefixOf ps cs h.2
    simp only [List.length_cons]
    omega

/-- A match that reaches the end of the text leaves nothing. -/
theorem removeFence_skip_all (pat : List Char) :
    ∀ (l : List Char) (k : Nat), l.length ≤ k → removeFence pat k l = []
  | [], _, _ => by simp [removeFence]
  | _ :: cs, 0, h => by simp at h
  | _ :: cs, k + 1, h => by
    simp only [removeFence]
    exact removeFence_skip_all pat cs k (by simpa using h)

/-- Dropping the rest of a match that covers `l` resumes the scan behind `l`. -/
theorem removeFence_skip_append (pat : List Char) (r : List Char) :
    ∀ (l : List Char) (k : Nat), removeFence pat (l.length + k) (l ++ r) = removeFence pat k r
  | [], k => by simp
  | _ :: cs, k => by
    have : (List.length cs + 1 + k) = (cs.length + k) + 1 := by omega
    simp only [List.length_cons, List.cons_append, this, removeFence]
    exact removeFence_skip_append pat r cs k


/-- The scan at a position outside a match. -/
theorem removeFence_zero_cons (pat : List Char) (c : Char) (cs : List Char) :
    removeFence pat 0 (c :: cs) =
      if pat.isPrefixOf (c :: cs) then
        if ['\n'].isPrefixOf ((c :: cs).drop pat.length) then removeFence pat pat.length cs
        else removeFence pat (pat.length - 1) cs
      else c :: removeFence pat 0 cs := rfl

/-- The scan inside a match. -/
theorem removeFence_succ_cons (pat : List Char) (k : Nat) (c : Char) (cs : List Char) :
    removeFence pat (k + 1) (c :: cs) = removeFence pat k cs := rfl

/-- Scanning `s` followed by a line feed and `t`: either the scan of `s` followed by the scan
of the tail, or, when a match ends exactly where `s` ends, the match also swallows the line
feed. -/
theorem removeFence_append_newline (pat t : List Char) (hnl : '\n' ∉ pat) :
    ∀ (s : List Char) (skip : Nat), skip ≤ s.length →
      removeFence pat skip (s ++ '\n' :: t) = removeFence pat skip s ++ removeFence pat 0 ('\n' :: t) ∨
      removeFence pat skip (s ++ '\n' :: t) = removeFence pat skip s ++ removeFence pat 0 t
  | [], skip, h => by
    have : skip = 0 := by simpa using h
    subst this
    left
    simp [removeFence]
  | c :: cs, skip + 1, h => by
    rw [List.cons_append, removeFence_succ_cons, removeFence_succ_cons]
    exact removeFence_append_newline pat t hnl cs skip (by simpa using h)
  | c :: cs, 0, _ => by
    have hpre : pat.isPrefixOf (c :: cs ++ '\n' :: t) = pat.isPrefixOf (c :: cs) :=
      isPrefixOf_append_of_not_mem '\n' t pat (c :: cs) hnl
    rw [List.cons_append] at hpre
    rw [List.cons_append, removeFence_zero_cons, removeFence_zero_cons pat c cs, hpre]
    by_cases hm : pat.isPrefixOf (c :: cs) = true
    · have hlen := length_le_of_isPrefixOf pat (c :: cs) hm
      simp only [hm, if_true]
      rcases Nat.lt_or_ge pat.length (c :: cs).length with hlt | hge
      · -- the match ends inside `s`
        have hdrop : (c :: (cs ++ '\n' :: t)).drop pat.length
            = (c :: cs).drop pat.length ++ '\n' :: t := by
          rw [← List.cons_append, List.drop_append_of_le_length (Nat.le_of_lt hlt)]
        obtain ⟨d, ds, hd⟩ : ∃ d ds, (c :: cs).drop pat.length = d :: ds := by
          cases hx : (c :: cs).drop pat.length with
          | nil =>
            have := congrArg List.length hx
            simp only [List.length_drop, List.length_nil] at this
            omega
          | cons d ds => exact ⟨d, ds, rfl⟩
        rw [hdrop, hd]
        simp only [List.length_cons] at hlt
        have hsame : ['\n'].isPrefixOf (d :: ds ++ '\n' :: t) = ['\n'].isPrefixOf (d :: ds) := by
          simp [List.isPrefixOf]
        rw [hsame]
        by_cases hn : ['\n'].isPrefixOf (d :: ds) = true
        · simp only [hn, if_true]
          exact removeFence_append_newline pat t hnl cs _ (by omega)
        · simp only [hn, if_false]
          exact removeFence_append_newline pat t hnl cs _ (by omega)
      · -- the match ends where `s` ends
        have heq : pat.length = cs.length + 1 := by
          simp only [List.length_cons] at hlen hge
          omega
        have hd1 : (c :: cs).drop pat.length = [] := by
          apply List.drop_of_length_le
          simp only [List.length_cons]; omega
        have hd2 : (c :: (cs ++ '\n' :: t)).drop pat.length = '\n' :: t := by
          rw [← List.cons_append, heq]
          have : (c :: cs).length = cs.length + 1 := rfl
          rw [← this, List.drop_left]
        rw [hd1, hd2]
        right
        have h1 : removeFence pat (pat.length - 1) cs = [] :=
          removeFence_skip_all pat cs _ (by omega)
        have h2 : removeFence pat pat.length (cs ++ '\n' :: t) = removeFence pat 0 t := by
          have := removeFence_skip_append pat t (cs ++ ['\n']) 0
          simpa [heq] using this
        simp [List.isPrefixOf, h1, h2]
    · simp only [hm, if_false]
      rcases removeFence_append_newline pat t hnl cs 0 (Nat.zero_le _) with ih | ih
      · left; rw [ih]; rfl
      · right; rw [ih]; rfl

/-- The characters of the bare fence. -/
theorem fence_data : "```".data = [tick, tick, tick] := by decide

/-- The characters of the fence with its language tag. -/
theorem fenceJson_data : "```json".data = [tick, tick, tick, 'j', 's', 'o', 'n'] := by decide

/-- Three more backticks behind `s` leave the scan for the bare fence unchanged: a run of
backticks loses complete triples from its left end. -/
theorem removeFence_append_fence :
    ∀ (s : List Char) (skip : Nat), skip ≤ s.length →
      removeFence [tick, tick, tick] skip (s ++ [tick, tick, tick])
        = removeFence [tick, tick, tick] skip s
  | [], skip, h => by
    have : skip = 0 := by simpa using h
    subst this
    decide
  | c :: cs, skip + 1, h => by
    rw [List.cons_append, removeFence_succ_cons, removeFence_succ_cons]
    exact removeFence_append_fence cs skip (by simpa using h)
  | c :: cs, 0, _ => by
    have ih : ∀ k, k ≤ cs.length →
        removeFence [tick, tick, tick] k (cs ++ [tick, tick, tick])
          = removeFence [tick, tick, tick] k cs :=
      fun k hk => removeFence_append_fence cs k hk
    rw [List.cons_append, removeFence_zero_cons, removeFence_zero_cons _ c cs]
    by_cases hc : c = tick
    · subst hc
      match cs, ih with
      | [], _ => decide
      | d :: ds, ih =>
        by_cases hd : d = tick
        · subst hd
          match ds, ih with
          | [], _ => decide
          | e :: es, ih =>
            by_cases he : e = tick
            · subst he
              match es, ih with
              | [], _ => decide
              | f :: fs, ih =>
                have ih2 := ih 2 (by simp)
                have ih3 := ih 3 (by simp)
                by_cases hf : f = '\n'
                · subst hf
                  simpa [List.isPrefixOf] using ih3
                · simpa [List.isPrefixOf, hf, Ne.symm hf] using ih2
            · have he2 : ¬ tick = e := fun h => he h.symm
              have ih0 := ih 0 (Nat.zero_le _)
              simp only [List.cons_append] at ih0
              simp [List.isPrefixOf, he, he2, ih0]
        · have hd2 : ¬ tick = d := fun h => hd h.symm
          have ih0 := ih 0 (Nat.zero_le _)
          simp only [List.cons_append] at ih0
          simp [List.isPrefixOf, hd, hd2, ih0]
    · have hc2 : ¬ tick = c := fun h => hc h.symm
      simp [List.isPrefixOf, hc, hc2, ih 0 (Nat.zero_le _)]

/-- One more character satisfying `p` at the end is dropped with the rest of the tail. -/
theorem dropWhile_append_singleton (p : Char → Bool) (x : Char) (hx : p x = true) :
    ∀ (l : List Char),
      ((l ++ [x]).dropWhile p).reverse.dropWhile p = (l.dropWhile p).reverse.dropWhile p
  | [] => by simp [List.dropWhile, hx]
  | c :: cs => by
    by_cases hc : p c = true
    · simp only [List.cons_append, List.dropWhile_cons, hc, if_true]
      exact dropWhile_append_singleton p x hx cs
    · simp [List.dropWhile_cons, hc, hx]

/-- A line feed at the end does not survive `trim`. -/
theorem trimChars_append_newline (l : List Char) : trimChars (l ++ ['\n']) = trimChars l := by
  unfold trimChars
  rw [dropWhile_append_singleton isJsWhiteSpace '\n' (by decide) l]

/-- The cleaned text of a fenced reply, on lists of characters. -/
theorem clean_fenced_chars (s : List Char) :
    trimChars (removeFence [tick, tick, tick] 0
        (removeFence [tick, tick, tick, 'j', 's', 'o', 'n'] 0
          ([tick, tick, tick, 'j', 's', 'o', 'n', '\n'] ++ s ++ ['\n', tick, tick, tick])))
      = trimChars (removeFence [tick, tick, tick] 0
          (removeFence [tick, tick, tick, 'j', 's', 'o', 'n'] 0 s)) := by
  have hhead : ∀ r : List Char,
      removeFence [tick, tick, tick, 'j', 's', 'o', 'n'] 0
        ([tick, tick, tick, 'j', 's', 'o', 'n', '\n'] ++ r)
        = removeFence [tick, tick, tick, 'j', 's', 'o', 'n'] 0 r := by
    intro r
    simp [removeFence, List.isPrefixOf]
  rw [List.append_assoc, hhead]
  have hnl1 : '\n' ∉ [tick, tick, tick, 'j', 's', 'o', 'n'] := by decide
  have hnl2 : '\n' ∉ [tick, tick, tick] := by decide
  have ht1 : removeFence [tick, tick, tick, 'j', 's', 'o', 'n'] 0 ['\n', tick, tick, tick]
      = ['\n', tick, tick, tick] := by decide
  have ht2 : removeFence [tick, tick, tick, 'j', 's', 'o', 'n'] 0 [tick, tick, tick]
      = [tick, tick, tick] := by decide
  have ht3 : removeFence [tick, tick, tick] 0 ['\n', tick, tick, tick] = ['\n'] := by decide
  have ht4 : removeFence [tick, tick, tick] 0 [tick, tick, tick] = [] := by decide
  rcases removeFence_append_newline _ [tick, tick, tick] hnl1 s 0 (Nat.zero_le _) with h1 | h1
  · rw [h1, ht1]
    rcases removeFence_append_newline _ [tick, tick, tick] hnl2
        (removeFence [tick, tick, tick, 'j', 's', 'o', 'n'] 0 s) 0 (Nat.zero_le _) with h2 | h2
    · rw [h2, ht3, trimChars_append_newline]
    · rw [h2, ht4, List.append_nil]
  · rw [h1, ht2, removeFence_append_fence _ 0 (Nat.zero_le _)]

/-- The clean-up of App.js line 98 gives the same string for the fenced reply as for the
bare reply. -/
theorem cleanResponse_fenced (s : String) :
    cleanResponse ("```json\n" ++ s ++ "\n```") = cleanResponse s := by
  unfold cleanResponse
  have hd : ("```json\n" ++ s ++ "\n```").data
      = [tick, tick, tick, 'j', 's', 'o', 'n', '\n'] ++ s.data ++ ['\n', tick, tick, tick] := by
    rw [String.data_append, String.data_append]
    have h1 : "```json\n".data = [tick, tick, tick, 'j', 's', 'o', 'n', '\n'] := by decide
    have h2 : "\n```".data = ['\n', tick, tick, tick] := by decide
    rw [h1, h2]
  rw [hd, fence_data, fenceJson_data, clean_fenced_chars]

/-! ### Sorting -/

/-- The integer a numeric score holds. -/
theorem integerScore_of_score {r : MatchResult} {n : ℤ} (h : r.score = some (.num n)) :
    integerScore r = n := by
  simp [integerScore, h]

/-- The coercion of a number does not throw. -/
theorem scoreThrows_of_num {r : MatchResult} {q : ℚ} (h : r.score = some (.num q)) :
    scoreThrows r = false := by
  simp [scoreThrows, h, Json.toPrimitiveThrows]

/-- On results with integer scores the comparator orders by the score, descending. -/
theorem staysBefore_iff_of_int {a b : MatchResult} {m n : ℤ}
    (ha : a.score = some (.num m)) (hb : b.score = some (.num n)) :
    staysBefore a b ↔ n ≤ m := by
  simp only [staysBefore, compareFn, scoreNumber, ha, hb, Json.toNumber, jsSub,
    JsNumber.isPositive, decide_eq_false_iff_not, not_lt, sub_nonpos]
  exact_mod_cast Iff.rfl

/-- When no coercion throws, `sort` returns the insertion-sorted list. -/
theorem sortResults_of_no_throw (results : List MatchResult)
    (h : results.any scoreThrows = false) :
    sortResults results = some (results.insertionSort staysBefore) := by
  unfold sortResults
  by_cases hlen : results.length < 2
  · rw [if_pos hlen]
    match results, hlen with
    | [], _ => rfl
    | [x], _ => rfl
    | _ :: _ :: _, hl => exact absurd hl (by simp)
  · rw [if_neg hlen, h]
    simp

/-- With integer scores no coercion throws. -/
theorem any_scoreThrows_of_int (results : List MatchResult)
    (hint : ∀ r ∈ results, ∃ n : ℤ, r.score = some (.num n)) :
    results.any scoreThrows = false := by
  rw [List.any_eq_false]
  intro r hr
  obtain ⟨n, hn⟩ := hint r hr
  simp [scoreThrows_of_num hn]

/-- The insertion sort of results with integer scores is ordered by score, descending. -/
theorem insertionSort_pairwise_of_int (results : List MatchResult)
    (hint : ∀ r ∈ results, ∃ n : ℤ, r.score = some (.num n)) :
    (results.insertionSort staysBefore).Pairwise (fun a b => integerScore b ≤ integerScore a) := by
  have hmap := List.map_insertionSort (r := staysBefore) (s := fun m n : ℤ => n ≤ m)
    integerScore results (by
      intro a ha b hb
      obtain ⟨m, hm⟩ := hint a ha
      obtain ⟨n, hn⟩ := hint b hb
      rw [staysBefore_iff_of_int hm hn, integerScore_of_score hm, integerScore_of_score hn])
  have hsorted : ((results.map integerScore).insertionSort (fun m n : ℤ => n ≤ m)).Sorted
      (fun m n : ℤ => n ≤ m) :=
    haveI : IsTotal ℤ (fun m n : ℤ => n ≤ m) := ⟨fun a b => le_total b a⟩
    haveI : IsTrans ℤ (fun m n : ℤ => n ≤ m) := ⟨fun _ _ _ h1 h2 => le_trans h2 h1⟩
    List.sorted_insertionSort _ _
  rw [← hmap] at hsorted
  exact List.pairwise_map.mp hsorted

/-- Stability: the results with a given score keep their input order. -/
theorem insertionSort_filter_of_int (results : List MatchResult)
    (hint : ∀ r ∈ results, ∃ n : ℤ, r.score = some (.num n)) (p : MatchResult → Bool)
    (hp : ∀ a ∈ results, ∀ b ∈ results, p a = true → p b = true → integerScore a = integerScore b) :
    (results.insertionSort staysBefore).filter p = results.filter p := by
  have hpair : (results.filter p).Pairwise staysBefore := by
    rw [List.pairwise_iff_forall_sublist]
    intro a b hab
    have ha : a ∈ results.filter p := hab.subset (by simp)
    have hb : b ∈ results.filter p := hab.subset (by simp)
    rw [List.mem_filter] at ha hb
    obtain ⟨m, hm⟩ := hint a ha.1
    obtain ⟨n, hn⟩ := hint b hb.1
    rw [staysBefore_iff_of_int hm hn]
    have := hp a ha.1 b hb.1 ha.2 hb.2
    rw [integerScore_of_score hm, integerScore_of_score hn] at this
    omega
  have hsub : (results.filter p).Sublist (results.insertionSort staysBefore) :=
    List.sublist_insertionSort hpair (List.filter_sublist _)
  have hsub2 : (results.filter p).Sublist ((results.insertionSort staysBefore).filter p) := by
    have := hsub.filter p
    simpa [List.filter_filter] using this
  have hlen : ((results.insertionSort staysBefore).filter p).length = (results.filter p).length :=
    ((List.perm_insertionSort staysBefore results).filter p).length_eq
  exact (hsub2.eq_of_length hlen.symm).symm

/-- **C1.** For results with integer scores, collected in input order, and every `topCount`,
the list handed to `setMatches` (`sort` by `b.score - a.score`, then `slice(0, topCount)`)
exists, is the first `topCount` elements of a rearrangement of the results, is ordered by
score non-increasing, and for every score the returned results with that score are, in the
returned order, an initial segment of the input results with that score in input order (the
sort is stable). -/
theorem rankedMatches_sorted_stable (results : List MatchResult) (topCount : Nat)
    (hint : ∀ r ∈ results, ∃ n : ℤ, r.score = some (.num n)) :
    ∃ sorted top : List MatchResult, rankedMatches results topCount = some top ∧
      sorted.Perm results ∧ top = sorted.take topCount ∧
      top.Pairwise (fun a b => ∀ m n : ℤ,
        a.score = some (.num m) → b.score = some (.num n) → n ≤ m) ∧
      ∀ s : ℤ, List.IsPrefix (top.filter (fun r => decide (r.score = some (.num s))))
        (results.filter (fun r => decide (r.score = some (.num s)))) := by
  refine ⟨results.insertionSort staysBefore, (results.insertionSort staysBefore).take topCount,
    ?_, List.perm_insertionSort _ _, rfl, ?_, ?_⟩
  · simp [rankedMatches, sortResults_of_no_throw results (any_scoreThrows_of_int results hint)]
  · have h := insertionSort_pairwise_of_int results hint
    have h2 : ((results.insertionSort staysBefore).take topCount).Pairwise
        (fun a b => integerScore b ≤ integerScore a) :=
      h.sublist (List.take_sublist _ _)
    refine h2.imp ?_
    intro a b hab m n hm hn
    rwa [integerScore_of_score hm, integerScore_of_score hn] at hab
  · intro s
    have hf := insertionSort_filter_of_int results hint
      (fun r => decide (r.score = some (.num s))) (by
        intro a _ b _ ha hb
        simp only [decide_eq_true_eq] at ha hb
        rw [integerScore_of_score ha, integerScore_of_score hb])
    rw [← hf]
    exact List.IsPrefix.filter _ (List.take_prefix _ _)

/-- The theorem for C1 at three results with scores 1, 3, 1 and `topCount` 2. -/
theorem rankedMatches_sorted_stable_witness :
    ∃ sorted top : List MatchResult,
      rankedMatches [⟨"a", some (.num (1 : ℤ)), none, .arr [], .arr []⟩,
          ⟨"b", some (.num (3 : ℤ)), none, .arr [], .arr []⟩,
          ⟨"c", some (.num (1 : ℤ)), none, .arr [], .arr []⟩] 2 = some top ∧
      sorted.Perm [⟨"a", some (.num (1 : ℤ)), none, .arr [], .arr []⟩,
          ⟨"b", some (.num (3 : ℤ)), none, .arr [], .arr []⟩,
          ⟨"c", some (.num (1 : ℤ)), none, .arr [], .arr []⟩] ∧ top = sorted.take 2 ∧
      top.Pairwise (fun a b => ∀ m n : ℤ,
        a.score = some (.num m) → b.score = some (.num n) → n ≤ m) ∧
      ∀ s : ℤ, List.IsPrefix (top.filter (fun r => decide (r.score = some (.num s))))
        (([⟨"a", some (.num (1 : ℤ)), none, .arr [], .arr []⟩,
          ⟨"b", some (.num (3 : ℤ)), none, .arr [], .arr []⟩,
          ⟨"c", some (.num (1 : ℤ)), none, .arr [], .arr []⟩] : List MatchResult).filter
            (fun r => decide (r.score = some (.num s)))) :=
  rankedMatches_sorted_stable _ 2 (by
    intro r hr
    simp only [List.mem_cons, List.mem_singleton, List.not_mem_nil, or_false] at hr
    rcases hr with h | h | h
    · exact ⟨1, by rw [h]⟩
    · exact ⟨3, by rw [h]⟩
    · exact ⟨1, by rw [h]⟩)

/-! ### The reply interpreter -/

/-- **C5.** For every reply text `s`, wrapping it in a code fence (three backticks and
`json`, a line feed, `s`, a line feed, three backticks) changes neither the string the
clean-up of App.js line 98 produces, nor what `JSON.parse` makes of it, nor the result that
is pushed. -/
theorem fenced_reply_same_result (s : String) :
    cleanResponse ("```json\n" ++ s ++ "\n```") = cleanResponse s ∧
    JSON_parse (cleanResponse ("```json\n" ++ s ++ "\n```")) = JSON_parse (cleanResponse s) ∧
    ∀ fileName : String,
      interpretReply fileName ("```json\n" ++ s ++ "\n```") = interpretReply fileName s := by
  have h := cleanResponse_fenced s
  refine ⟨h, by rw [h], fun fileName => ?_⟩
  unfold interpretReply
  rw [h]

/-- A file whose read settles and whose request succeeds gets the interpreted reply. -/
theorem processFile_replied (jobDescription : String) (file : ResumeFile) (reply : String)
    (hread : file.read ≠ .silent) (horacle : file.oracle = .replied reply) :
    (processFile jobDescription file).2 = some (interpretReply file.name reply) := by
  unfold processFile
  cases hr : file.read with
  | silent => exact absurd hr hread
  | loaded text => simp [horacle]
  | threw => simp [horacle]

/-- **C6.** When the reply of a successful request, after the clean-up, is not valid JSON,
the file still gets exactly one result, pushed by the inner handler and not by the
`catch (apiError)` around it: the fixed Parse-Degraded Result with score 50, the fixed
reasoning, the fixed one-item lists, and the name of the file. -/
theorem invalid_json_gives_parse_degraded (jobDescription : String) (file : ResumeFile)
    (reply : String) (hread : file.read ≠ .silent) (horacle : file.oracle = .replied reply)
    (hbad : JSON_parse (cleanResponse reply) = none) :
    (processFile jobDescription file).2 = some
      { fileName := file.name
        score := some (.num 50)
        reasoning := some (.str
          "Unable to fully analyze this resume, but basic matching suggests moderate fit.")
        keyStrengths := .arr [.str "Resume uploaded successfully"]
        concerns := .arr [.str "Analysis incomplete"] } := by
  rw [processFile_replied jobDescription file reply hread horacle]
  simp [interpretReply, hbad, parseDegraded]

/-- The theorem for C6 at the reply `not json`. -/
theorem invalid_json_gives_parse_degraded_witness :
    (processFile "Seeking lab intern"
        { name := "bob.txt", read := .loaded "BS Chemistry", oracle := .replied "not json" }).2
      = some
      { fileName := "bob.txt"
        score := some (.num 50)
        reasoning := some (.str
          "Unable to fully analyze this resume, but basic matching suggests moderate fit.")
        keyStrengths := .arr [.str "Resume uploaded successfully"]
        concerns := .arr [.str "Analysis incomplete"] } :=
  invalid_json_gives_parse_degraded "Seeking lab intern"
    { name := "bob.txt", read := .loaded "BS Chemistry", oracle := .replied "not json" }
    "not json" (by decide) rfl (by decide)

/-- The result for a reply that parses as an object. -/
theorem interpretReply_of_obj (fileName reply : String) (fields : List (String × Json))
    (hparse : JSON_parse (cleanResponse reply) = some (.obj fields)) :
    interpretReply fileName reply =
      { fileName := fileName
        score := fields.lookup "score"
        reasoning := fields.lookup "reasoning"
        keyStrengths := orEmptyList (fields.lookup "key_strengths")
        concerns := orEmptyList (fields.lookup "concerns") } := by
  simp [interpretReply, hparse, property]

/-- Counterexample to C7: the reply parses as an object without `score`; the result pushed
has an undefined score and is not the Parse-Degraded Result. -/
theorem missing_score_not_parse_degraded :
    JSON_parse (cleanResponse "\x7b\"reasoning\":\"ok\"\x7d") = some (.obj [("reasoning", .str "ok")]) ∧
    List.lookup "score" [("reasoning", Json.str "ok")] = none ∧
    (interpretReply "carol.txt" "\x7b\"reasoning\":\"ok\"\x7d").score = none ∧
    interpretReply "carol.txt" "\x7b\"reasoning\":\"ok\"\x7d" ≠ parseDegraded "carol.txt" := by
  decide

/-- **C7, amended.** A reply whose cleaned text parses as an object is never checked for
required fields: the result takes `score` and `reasoning` from the object, each undefined
when the field is missing, and `keyStrengths` and `concerns` through `|| []`.  When `score`
or `reasoning` is missing this result is not the Parse-Degraded Result. -/
theorem object_reply_not_validated (fileName reply : String) (fields : List (String × Json))
    (hparse : JSON_parse (cleanResponse reply) = some (.obj fields))
    (hmissing : fields.lookup "score" = none ∨ fields.lookup "reasoning" = none) :
    interpretReply fileName reply =
      { fileName := fileName
        score := fields.lookup "score"
        reasoning := fields.lookup "reasoning"
        keyStrengths := orEmptyList (fields.lookup "key_strengths")
        concerns := orEmptyList (fields.lookup "concerns") } ∧
    interpretReply fileName reply ≠ parseDegraded fileName := by
  have h := interpretReply_of_obj fileName reply fields hparse
  refine ⟨h, ?_⟩
  rw [h]
  intro heq
  rcases hmissing with hm | hm
  · have := congrArg MatchResult.score heq
    simp [parseDegraded, hm] at this
  · have := congrArg MatchResult.reasoning heq
    simp [parseDegraded, hm] at this

/-- The amended C7 at a reply that has a score and no reasoning. -/
theorem object_reply_not_validated_witness :
    interpretReply "dave.txt" "\x7b\"score\":70\x7d" =
      { fileName := "dave.txt"
        score := List.lookup "score" [("score", Json.num 70)]
        reasoning := List.lookup "reasoning" [("score", Json.num 70)]
        keyStrengths := orEmptyList (List.lookup "key_strengths" [("score", Json.num 70)])
        concerns := orEmptyList (List.lookup "concerns" [("score", Json.num 70)]) } ∧
    interpretReply "dave.txt" "\x7b\"score\":70\x7d" ≠ parseDegraded "dave.txt" :=
  object_reply_not_validated "dave.txt" "\x7b\"score\":70\x7d" [("score", Json.num 70)]
    (by decide) (Or.inr (by decide))

/-! ### The fallback scores -/

/-- The score of the fallback for a response that is not ok lies in 30..69. -/
theorem serviceUnavailableScore_bounds (r : ℚ) (h0 : 0 ≤ r) (h1 : r < 1) :
    30 ≤ serviceUnavailableScore r ∧ serviceUnavailableScore r ≤ 69 := by
  unfold serviceUnavailableScore
  have hlo : 0 ≤ ⌊r * 40⌋ := Int.floor_nonneg.mpr (by positivity)
  have hhi : ⌊r * 40⌋ < 40 := Int.floor_lt.mpr (by push_cast; linarith)
  omega

/-- The score of the fallback for a thrown error lies in 20..79. -/
theorem transportFailureScore_bounds (r : ℚ) (h0 : 0 ≤ r) (h1 : r < 1) :
    20 ≤ transportFailureScore r ∧ transportFailureScore r ≤ 79 := by
  unfold transportFailureScore
  have hlo : 0 ≤ ⌊r * 60⌋ := Int.floor_nonneg.mpr (by positivity)
  have hhi : ⌊r * 60⌋ < 60 := Int.floor_lt.mpr (by push_cast; linarith)
  omega

/-- **C8.** For every draw `r` with `0 ≤ r < 1`, the score of the result pushed for a
response that is not ok is the integer `floor(r*40)+30` and lies in [30,70], and the score
of the result pushed after a thrown error is the integer `floor(r*60)+20` and lies in
[20,80]. -/
theorem fallback_scores_in_range (fileName : String) (r : ℚ) (h0 : 0 ≤ r) (h1 : r < 1) :
    (∃ n : ℤ, (serviceUnavailable fileName r).score = some (.num n) ∧
      n = ⌊r * 40⌋ + 30 ∧ 30 ≤ n ∧ n ≤ 70) ∧
    (∃ n : ℤ, (transportFailure fileName r).score = some (.num n) ∧
      n = ⌊r * 60⌋ + 20 ∧ 20 ≤ n ∧ n ≤ 80) := by
  have hs := serviceUnavailableScore_bounds r h0 h1
  have ht := transportFailureScore_bounds r h0 h1
  refine ⟨⟨serviceUnavailableScore r, rfl, rfl, hs.1, by omega⟩,
    ⟨transportFailureScore r, rfl, rfl, ht.1, by omega⟩⟩

/-- The theorem for C8 at the draw 1/2. -/
theorem fallback_scores_in_range_witness :
    (∃ n : ℤ, (serviceUnavailable "erin.txt" (1 / 2)).score = some (.num n) ∧
      n = ⌊(1 / 2 : ℚ) * 40⌋ + 30 ∧ 30 ≤ n ∧ n ≤ 70) ∧
    (∃ n : ℤ, (transportFailure "erin.txt" (1 / 2)).score = some (.num n) ∧
      n = ⌊(1 / 2 : ℚ) * 60⌋ + 20 ∧ 20 ≤ n ∧ n ≤ 80) :=
  fallback_scores_in_range "erin.txt" (1 / 2) (by norm_num) (by norm_num)

/-! ### The precondition -/

/-- A text of white space only is trimmed to the empty text. -/
theorem trimChars_eq_nil_of_all (cs : List Char) (h : ∀ c ∈ cs, isJsWhiteSpace c = true) :
    trimChars cs = [] := by
  unfold trimChars
  have : cs.dropWhile isJsWhiteSpace = [] := List.dropWhile_eq_nil_iff.mpr h
  rw [this]
  rfl

/-- **C9.** When the job description is empty or consists of white space only, and also when
no file was uploaded, `matchResumesToJob` only raises the alert and returns: `setLoading`,
`fetch` and `setMatches` are not called, no result is produced, and the state, with its
stored matches and its loading flag, is what it was. -/
theorem matchResumesToJob_rejects (st : AppState)
    (h : (∀ c ∈ st.jobDescription.data, isJsWhiteSpace c = true) ∨ st.resumeFiles = []) :
    (matchResumesToJob st).effects
        = [.alert "Please provide both job description and resume files"] ∧
    (matchResumesToJob st).state = st ∧
    (matchResumesToJob st).returned = true := by
  have hcond : jsTrim st.jobDescription = "" ∨ st.resumeFiles.length = 0 := by
    rcases h with h | h
    · left
      unfold jsTrim
      rw [trimChars_eq_nil_of_all _ h]
    · right
      rw [h]
      rfl
  unfold matchResumesToJob
  rw [if_pos hcond]
  exact ⟨rfl, rfl, rfl⟩

/-- The theorem for C9 at a job description of a space, a line feed and a tab. -/
theorem matchResumesToJob_rejects_witness :
    (matchResumesToJob
        { jobDescription := " \n\t"
          resumeFiles := [{ name := "alice.txt", read := .loaded "BS Biology",
                            oracle := .replied "\x7b\"score\":88\x7d" }]
          storedMatches := [parseDegraded "old.txt"]
          loading := false
          topCount := 5 }).effects
        = [.alert "Please provide both job description and resume files"] ∧
    (matchResumesToJob
        { jobDescription := " \n\t"
          resumeFiles := [{ name := "alice.txt", read := .loaded "BS Biology",
                            oracle := .replied "\x7b\"score\":88\x7d" }]
          storedMatches := [parseDegraded "old.txt"]
          loading := false
          topCount := 5 }).state =
        { jobDescription := " \n\t"
          resumeFiles := [{ name := "alice.txt", read := .loaded "BS Biology",
                            oracle := .replied "\x7b\"score\":88\x7d" }]
          storedMatches := [parseDegraded "old.txt"]
          loading := false
          topCount := 5 } ∧
    (matchResumesToJob
        { jobDescription := " \n\t"
          resumeFiles := [{ name := "alice.txt", read := .loaded "BS Biology",
                            oracle := .replied "\x7b\"score\":88\x7d" }]
          storedMatches := [parseDegraded "old.txt"]
          loading := false
          topCount := 5 }).returned = true :=
  matchResumesToJob_rejects _ (Or.inl (by decide))

/-! ### Scores -/

/-- Counterexample to C4: a reply that parses, with score 150; the score of the result is
150, not an integer in [0,100]. -/
theorem parsed_score_out_of_range :
    (processFile "Seeking lab intern"
      { name := "frank.txt", read := .loaded "BS Physics",
        oracle := .replied "\x7b\"score\":150,\"reasoning\":\"ok\"\x7d" }).2
      = some
        { fileName := "frank.txt", score := some (.num 150), reasoning := some (.str "ok"),
          keyStrengths := .arr [], concerns := .arr [] } ∧
    ¬ ∃ n : ℤ, (some (Json.num 150) : Option Json) = some (.num n) ∧ 0 ≤ n ∧ n ≤ 100 := by
  refine ⟨by decide, ?_⟩
  rintro ⟨n, hn, -, h100⟩
  have h150 : (150 : ℚ) = (n : ℚ) := by
    injection hn with h1
    injection h1
  have : n = 150 := by exact_mod_cast h150.symm
  omega

/-- The two kinds of score: an integer in [0,100], or the `score` property of a reply that
parsed to a value other than `null`. -/
theorem score_cases (jobDescription : String) (file : ResumeFile)
    (res : MatchResult) (hpush : (processFile jobDescription file).2 = some res)
    (hdraw : ∀ d : ℚ, file.oracle = .notOk d ∨ file.oracle = .failed d → 0 ≤ d ∧ d < 1) :
    (∃ n : ℤ, res.score = some (.num n) ∧ 0 ≤ n ∧ n ≤ 100) ∨
    (∃ reply analysis, file.oracle = .replied reply ∧
      JSON_parse (cleanResponse reply) = some analysis ∧ analysis ≠ .null ∧
      res.score = property analysis "score") := by
  have key : ∀ r : MatchResult,
      (match file.oracle with
        | .pending => none
        | .replied reply => some (interpretReply file.name reply)
        | .notOk d => some (serviceUnavailable file.name d)
        | .failed d => some (transportFailure file.name d)) = some r →
      (∃ n : ℤ, r.score = some (.num n) ∧ 0 ≤ n ∧ n ≤ 100) ∨
      (∃ reply analysis, file.oracle = .replied reply ∧
        JSON_parse (cleanResponse reply) = some analysis ∧ analysis ≠ .null ∧
        r.score = property analysis "score") := by
    intro r hr
    cases ho : file.oracle with
    | pending => rw [ho] at hr; exact absurd hr (by simp)
    | notOk d =>
      rw [ho] at hr
      obtain ⟨h0, h1⟩ := hdraw d (Or.inl ho)
      have hb := serviceUnavailableScore_bounds d h0 h1
      simp only [Option.some.injEq] at hr
      subst hr
      exact Or.inl ⟨serviceUnavailableScore d, rfl, by omega, by omega⟩
    | failed d =>
      rw [ho] at hr
      obtain ⟨h0, h1⟩ := hdraw d (Or.inr ho)
      have hb := transportFailureScore_bounds d h0 h1
      simp only [Option.some.injEq] at hr
      subst hr
      exact Or.inl ⟨transportFailureScore d, rfl, by omega, by omega⟩
    | replied reply =>
      rw [ho] at hr
      simp only [Option.some.injEq] at hr
      subst hr
      cases hp : JSON_parse (cleanResponse reply) with
      | none =>
        left
        refine ⟨50, ?_, by omega, by omega⟩
        simp [interpretReply, hp, parseDegraded]
      | some analysis =>
        by_cases hnull : analysis = .null
        · left
          subst hnull
          refine ⟨50, ?_, by omega, by omega⟩
          simp [interpretReply, hp, parseDegraded]
        · right
          refine ⟨reply, analysis, rfl, hp, hnull, ?_⟩
          unfold interpretReply
          rw [hp]
          cases analysis <;> first | rfl | exact absurd rfl hnull
  unfold processFile at hpush
  cases hr : file.read with
  | silent => rw [hr] at hpush; exact absurd hpush (by simp)
  | loaded text =>
    rw [hr] at hpush
    apply key res
    cases ho : file.oracle <;> rw [ho] at hpush <;> simp at hpush <;> simp [hpush]
  | threw =>
    rw [hr] at hpush
    apply key res
    cases ho : file.oracle <;> rw [ho] at hpush <;> simp at hpush <;> simp [hpush]

/-- **C4, amended.** For every file that gets a result, with draws in [0,1).  When the reply
parsed to a value other than `null`, the score of the result is the `score` property of
that value, taken as it is: present or not, of any type and size.  In every other case (the
Parse-Degraded Result and the two fallbacks) the score is present and is an integer in
[0,100]. -/
theorem score_in_range_unless_parsed (jobDescription : String) (file : ResumeFile)
    (res : MatchResult) (hpush : (processFile jobDescription file).2 = some res)
    (hdraw : ∀ d : ℚ, file.oracle = .notOk d ∨ file.oracle = .failed d → 0 ≤ d ∧ d < 1) :
    (∀ reply analysis, file.oracle = .replied reply →
      JSON_parse (cleanResponse reply) = some analysis → analysis ≠ .null →
      res.score = property analysis "score") ∧
    ((∀ reply analysis, file.oracle = .replied reply →
      JSON_parse (cleanResponse reply) = some analysis → analysis = .null) →
      ∃ n : ℤ, res.score = some (.num n) ∧ 0 ≤ n ∧ n ≤ 100) := by
  constructor
  · intro reply analysis horacle hparse hnull
    have hread : file.read ≠ .silent := by
      intro hs
      unfold processFile at hpush
      rw [hs] at hpush
      exact absurd hpush (by simp)
    rw [processFile_replied jobDescription file reply hread horacle] at hpush
    simp only [Option.some.injEq] at hpush
    rw [← hpush]
    unfold interpretReply
    rw [hparse]
    cases analysis <;> first | rfl | exact absurd rfl hnull
  · intro hfallback
    rcases score_cases jobDescription file res hpush hdraw with h | h
    · exact h
    · obtain ⟨reply, analysis, horacle, hparse, hnull, -⟩ := h
      exact absurd (hfallback reply analysis horacle hparse) hnull

/-- The amended C4 at a reply that parses with score 150, which is kept as it is, and at a
response that is not ok with the draw 1/4, whose score is in range. -/
theorem score_in_range_unless_parsed_witness :
    (some (Json.num 150) : Option Json)
      = property (.obj [("score", .num 150), ("reasoning", .str "ok")]) "score" ∧
    ∃ n : ℤ, (serviceUnavailable "gina.txt" (1 / 4)).score = some (.num n) ∧ 0 ≤ n ∧ n ≤ 100 :=
  ⟨(score_in_range_unless_parsed "Seeking lab intern"
      { name := "frank.txt", read := .loaded "BS Physics",
        oracle := .replied "\x7b\"score\":150,\"reasoning\":\"ok\"\x7d" }
      { fileName := "frank.txt", score := some (.num 150), reasoning := some (.str "ok"),
        keyStrengths := .arr [], concerns := .arr [] }
      (by decide) (by
        intro d hd
        rcases hd with hd | hd <;> exact absurd hd (by simp))).1
      "\x7b\"score\":150,\"reasoning\":\"ok\"\x7d"
      (.obj [("score", .num 150), ("reasoning", .str "ok")]) rfl (by decide) (by simp),
   (score_in_range_unless_parsed "Seeking lab intern"
      { name := "gina.txt", read := .loaded "BS Biology", oracle := .notOk (1 / 4) }
      (serviceUnavailable "gina.txt" (1 / 4)) rfl (by
        intro d hd
        rcases hd with hd | hd
        · have : (1 / 4 : ℚ) = d := by injection hd
          subst this
          constructor <;> norm_num
        · exact absurd hd (by simp))).2
      (by
        intro reply analysis h
        exact absurd h (by simp))⟩

/-! ### A reply that parses -/

/-- Counterexample to C10: the reply has integer score 88, a reasoning and a `concerns`
property that is present and holds the empty string; the result does not carry the reply's
`concerns` but the empty list. -/
theorem present_falsy_concerns_replaced :
    JSON_parse (cleanResponse
        "\x7b\"score\":88,\"reasoning\":\"Strong fit\",\"key_strengths\":[\"biology degree\"],\"concerns\":\"\"\x7d")
      = some (.obj [("score", .num (88 : ℤ)), ("reasoning", .str "Strong fit"),
          ("key_strengths", .arr [.str "biology degree"]), ("concerns", .str "")]) ∧
    List.lookup "concerns" [("score", Json.num (88 : ℤ)), ("reasoning", .str "Strong fit"),
          ("key_strengths", .arr [.str "biology degree"]), ("concerns", .str "")]
      = some (.str "") ∧
    (processFile "Seeking lab intern with biology coursework"
      { name := "alice.txt", read := .loaded "BS Biology, lab assistant 2 years",
        oracle := .replied
          "\x7b\"score\":88,\"reasoning\":\"Strong fit\",\"key_strengths\":[\"biology degree\"],\"concerns\":\"\"\x7d" }).2
      = some
        { fileName := "alice.txt", score := some (.num (88 : ℤ)),
          reasoning := some (.str "Strong fit"),
          keyStrengths := .arr [.str "biology degree"], concerns := .arr [] } ∧
    (Json.arr [] ≠ Json.str "") := by
  decide

/-- **C10, amended.** When the request succeeds and the cleaned reply parses to an object
with integer score `s` and reasoning `r`, the result pushed is the name of the file, `s`,
`r`, and for `keyStrengths` and `concerns` the value of `key_strengths` and of `concerns`
in the reply, replaced by the empty list when that value is missing or falsy (`null`,
`false`, 0, the empty string).  A single file `alice.txt` with the reply of the scenario
gives the one-element list of the scenario. -/
theorem parsed_reply_result (jobDescription : String) (file : ResumeFile) (reply : String)
    (fields : List (String × Json)) (s : ℤ) (r : String)
    (hread : file.read ≠ .silent) (horacle : file.oracle = .replied reply)
    (hparse : JSON_parse (cleanResponse reply) = some (.obj fields))
    (hscore : fields.lookup "score" = some (.num s))
    (hreason : fields.lookup "reasoning" = some (.str r)) :
    (processFile jobDescription file).2 = some
      { fileName := file.name
        score := some (.num s)
        reasoning := some (.str r)
        keyStrengths :=
          (match fields.lookup "key_strengths" with
          | none | some .null | some (.bool false) => .arr []
          | some (.num q) => if q = 0 then .arr [] else .num q
          | some (.str t) => if t = "" then .arr [] else .str t
          | some v => v)
        concerns :=
          (match fields.lookup "concerns" with
          | none | some .null | some (.bool false) => .arr []
          | some (.num q) => if q = 0 then .arr [] else .num q
          | some (.str t) => if t = "" then .arr [] else .str t
          | some v => v) } ∧
    (matchResumesToJob
      { jobDescription := "Seeking lab intern with biology coursework"
        resumeFiles :=
          [{ name := "alice.txt"
             read := .loaded "BS Biology, lab assistant 2 years"
             oracle := .replied
               "\x7b\"score\":88,\"reasoning\":\"Strong fit\",\"key_strengths\":[\"biology degree\"],\"concerns\":[]\x7d" }]
        storedMatches := []
        loading := false
        topCount := 5 }).state.storedMatches =
      [{ fileName := "alice.txt", score := some (.num (88 : ℤ)),
         reasoning := some (.str "Strong fit"),
         keyStrengths := .arr [.str "biology degree"], concerns := .arr [] }] := by
  refine ⟨?_, by decide⟩
  rw [processFile_replied jobDescription file reply hread horacle,
    interpretReply_of_obj file.name reply fields hparse, hscore, hreason]
  have hor : ∀ v : Option Json, orEmptyList v =
      (match v with
        | none | some .null | some (.bool false) => .arr []
        | some (.num q) => if q = 0 then .arr [] else .num q
        | some (.str t) => if t = "" then .arr [] else .str t
        | some v => v) := by
    intro v
    match v with
    | none => rfl
    | some .null => rfl
    | some (.bool true) => rfl
    | some (.bool false) => rfl
    | some (.num q) => by_cases hq : q = 0 <;> simp [orEmptyList, isTruthy, hq]
    | some (.str t) => by_cases ht : t = "" <;> simp [orEmptyList, isTruthy, ht]
    | some (.arr _) => rfl
    | some (.obj _) => rfl
  rw [hor, hor]

/-- The amended C10 at the file and the reply of the scenario. -/
theorem parsed_reply_result_witness :
    (processFile "Seeking lab intern with biology coursework"
      { name := "alice.txt", read := .loaded "BS Biology, lab assistant 2 years",
        oracle := .replied
          "\x7b\"score\":88,\"reasoning\":\"Strong fit\",\"key_strengths\":[\"biology degree\"],\"concerns\":[]\x7d" }).2
      = some
        { fileName := "alice.txt", score := some (.num (88 : ℤ)),
          reasoning := some (.str "Strong fit"),
          keyStrengths := .arr [.str "biology degree"], concerns := .arr [] } :=
  (parsed_reply_result "Seeking lab intern with biology coursework"
    { name := "alice.txt", read := .loaded "BS Biology, lab assistant 2 years",
      oracle := .replied
        "\x7b\"score\":88,\"reasoning\":\"Strong fit\",\"key_strengths\":[\"biology degree\"],\"concerns\":[]\x7d" }
    "\x7b\"score\":88,\"reasoning\":\"Strong fit\",\"key_strengths\":[\"biology degree\"],\"concerns\":[]\x7d"
    [("score", .num (88 : ℤ)), ("reasoning", .str "Strong fit"),
      ("key_strengths", .arr [.str "biology degree"]), ("concerns", .arr [])]
    88 "Strong fit" (by decide) rfl (by decide) (by decide) (by decide)).1

/-! ### One result per file, and the length of the stored list -/

/-- A file whose read and request are settled gets a result. -/
theorem processFile_settled (jobDescription : String) (file : ResumeFile)
    (hread : file.read ≠ .silent) (horacle : file.oracle ≠ .pending) :
    ∃ r, (processFile jobDescription file).2 = some r := by
  unfold processFile
  cases hr : file.read with
  | silent => exact absurd hr hread
  | loaded text =>
    cases ho : file.oracle with
    | pending => exact absurd ho horacle
    | replied reply => exact ⟨_, rfl⟩
    | notOk d => exact ⟨_, rfl⟩
    | failed d => exact ⟨_, rfl⟩
  | threw =>
    cases ho : file.oracle with
    | pending => exact absurd ho horacle
    | replied reply => exact ⟨_, rfl⟩
    | notOk d => exact ⟨_, rfl⟩
    | failed d => exact ⟨_, rfl⟩

/-- One turn of the loop for a file that gets a result. -/
theorem processFiles_cons_some (jobDescription : String) (file : ResumeFile)
    (files : List ResumeFile) (r : MatchResult)
    (h : (processFile jobDescription file).2 = some r) :
    processFiles jobDescription (file :: files) =
      ((processFile jobDescription file).1 ++ (processFiles jobDescription files).1,
        (processFiles jobDescription files).2.map (fun rs => r :: rs)) := by
  rcases hp : processFile jobDescription file with ⟨fx, o⟩
  rw [hp] at h
  simp only at h
  subst h
  simp [processFiles, hp]

/-- When every read and every request is settled, the loop pushes one result per file, in
input order. -/
theorem processFiles_settled (jobDescription : String) :
    ∀ files : List ResumeFile,
      (∀ f ∈ files, f.read ≠ .silent ∧ f.oracle ≠ .pending) →
      ∃ results, (processFiles jobDescription files).2 = some results ∧
        List.Forall₂ (fun f r => (processFile jobDescription f).2 = some r) files results
  | [], _ => ⟨[], rfl, List.Forall₂.nil⟩
  | file :: files, h => by
    obtain ⟨r, hr⟩ := processFile_settled jobDescription file
      (h file (List.mem_cons_self _ _)).1 (h file (List.mem_cons_self _ _)).2
    obtain ⟨rs, hrs, hall⟩ := processFiles_settled jobDescription files
      (fun f hf => h f (List.mem_cons_of_mem _ hf))
    refine ⟨r :: rs, ?_, List.Forall₂.cons hr hall⟩
    rw [processFiles_cons_some jobDescription file files r hr]
    simp [hrs]

/-- The call of `sort` keeps the number of elements. -/
theorem sortResults_length (results sorted : List MatchResult)
    (h : sortResults results = some sorted) : sorted.length = results.length := by
  unfold sortResults at h
  split at h
  · simp only [Option.some.injEq] at h
    rw [← h]
  · split at h
    · exact absurd h (by simp)
    · simp only [Option.some.injEq] at h
      rw [← h, List.length_insertionSort]

/-- The call of `sort` completes when the comparator is not called or no coercion throws. -/
theorem sortResults_isSome (results : List MatchResult)
    (h : results.length < 2 ∨ results.any scoreThrows = false) :
    ∃ sorted, sortResults results = some sorted := by
  unfold sortResults
  by_cases hlen : results.length < 2
  · exact ⟨_, if_pos hlen⟩
  · rcases h with h | h
    · exact absurd h hlen
    · rw [if_neg hlen, h]
      exact ⟨_, rfl⟩

/-- The call of `sort` throws when there are two results or more and a coercion throws. -/
theorem sortResults_eq_none (results : List MatchResult)
    (hlen : 2 ≤ results.length) (h : results.any scoreThrows = true) :
    sortResults results = none := by
  unfold sortResults
  rw [if_neg (by omega), h]
  rfl

/-- The run of a valid call in which the loop completes and `sort` does not throw. -/
theorem matchResumesToJob_of_ranked (st : AppState) (fx : List Effect)
    (results top : List MatchResult)
    (hjob : jsTrim st.jobDescription ≠ "") (hn : 1 ≤ st.resumeFiles.length)
    (hloop : processFiles st.jobDescription st.resumeFiles = (fx, some results))
    (hrank : rankedMatches results st.topCount = some top) :
    matchResumesToJob st =
      { effects := .setLoading true :: fx ++ [.setMatches top, .setLoading false]
        state := { st with storedMatches := top, loading := false }
        returned := true } := by
  unfold matchResumesToJob
  rw [if_neg (by
    intro h
    rcases h with h | h
    · exact hjob h
    · omega)]
  simp [hloop, hrank]

/-- The run of a valid call in which the loop completes and the comparator throws. -/
theorem matchResumesToJob_of_throw (st : AppState) (fx : List Effect)
    (results : List MatchResult)
    (hjob : jsTrim st.jobDescription ≠ "") (hn : 1 ≤ st.resumeFiles.length)
    (hloop : processFiles st.jobDescription st.resumeFiles = (fx, some results))
    (hrank : rankedMatches results st.topCount = none) :
    matchResumesToJob st =
      { effects := .setLoading true :: fx ++
          [.consoleError "Error matching resumes:",
           .alert "Error processing resumes. Please try again.", .setLoading false]
        state := { st with loading := false }
        returned := true } := by
  unfold matchResumesToJob
  rw [if_neg (by
    intro h
    rcases h with h | h
    · exact hjob h
    · omega)]
  simp [hloop, hrank]

/-- The argument of `setMatches` has `min(topCount, n)` elements. -/
theorem rankedMatches_length (results : List MatchResult) (topCount : Nat)
    (h : results.length < 2 ∨ results.any scoreThrows = false) :
    ∃ top, rankedMatches results topCount = some top ∧
      top.length = min topCount results.length := by
  obtain ⟨sorted, hs⟩ := sortResults_isSome results h
  refine ⟨sorted.take topCount, by simp [rankedMatches, hs], ?_⟩
  rw [List.length_take, sortResults_length results sorted hs]

/-- The loop as the pair of its effects and its results. -/
theorem processFiles_eta (jobDescription : String) (files : List ResumeFile)
    (results : List MatchResult)
    (h : (processFiles jobDescription files).2 = some results) :
    processFiles jobDescription files = ((processFiles jobDescription files).1, some results) := by
  rw [← h]

/-- Counterexample to C2: a valid run with two files, both requests successful and both
replies parseable, in which two results are collected and `setMatches` is not called at
all: each score is an object with an own `toString` property, so `b.score - a.score` throws
a `TypeError` and the outer `catch` takes over. -/
theorem comparator_throw_skips_setMatches :
    jsTrim "Seeking lab intern" ≠ "" ∧
    ((processFiles "Seeking lab intern"
      [{ name := "a.txt", read := .loaded "cv a",
         oracle := .replied "\x7b\"score\":\x7b\"toString\":1\x7d,\"reasoning\":\"x\"\x7d" },
       { name := "b.txt", read := .loaded "cv b",
         oracle := .replied "\x7b\"score\":\x7b\"toString\":1\x7d,\"reasoning\":\"x\"\x7d" }]).2.map
        List.length) = some 2 ∧
    (matchResumesToJob
      { jobDescription := "Seeking lab intern"
        resumeFiles :=
          [{ name := "a.txt", read := .loaded "cv a",
             oracle := .replied "\x7b\"score\":\x7b\"toString\":1\x7d,\"reasoning\":\"x\"\x7d" },
           { name := "b.txt", read := .loaded "cv b",
             oracle := .replied "\x7b\"score\":\x7b\"toString\":1\x7d,\"reasoning\":\"x\"\x7d" }]
        storedMatches := []
        loading := false
        topCount := 5 }).effects.filterMap
          (fun e => match e with
            | .setMatches top => some top
            | _ => none) = [] ∧
    (matchResumesToJob
      { jobDescription := "Seeking lab intern"
        resumeFiles :=
          [{ name := "a.txt", read := .loaded "cv a",
             oracle := .replied "\x7b\"score\":\x7b\"toString\":1\x7d,\"reasoning\":\"x\"\x7d" },
           { name := "b.txt", read := .loaded "cv b",
             oracle := .replied "\x7b\"score\":\x7b\"toString\":1\x7d,\"reasoning\":\"x\"\x7d" }]
        storedMatches := []
        loading := false
        topCount := 5 }).state.storedMatches = [] := by
  decide

/-- **C2, amended.** In a valid run (job description not empty after trimming, at least one
file) in which every read and every request is settled, exactly one result is pushed per
file, in input order, so that `results` has as many elements as there are files.  When the
comparator does not throw (fewer than two results, or no score whose coercion throws)
`setMatches` is called once, with a list of length `min(topCount, n)`.  When it throws, the
outer `catch` alerts, `setMatches` is not called and the stored matches stay. -/
theorem one_result_per_file_and_top_count (st : AppState)
    (hjob : jsTrim st.jobDescription ≠ "") (hn : 1 ≤ st.resumeFiles.length)
    (hsettled : ∀ f ∈ st.resumeFiles, f.read ≠ .silent ∧ f.oracle ≠ .pending) :
    ∃ results,
      (processFiles st.jobDescription st.resumeFiles).2 = some results ∧
      List.Forall₂ (fun f r => (processFile st.jobDescription f).2 = some r)
        st.resumeFiles results ∧
      results.length = st.resumeFiles.length ∧
      ((results.length < 2 ∨ results.any scoreThrows = false) →
        ∃ top,
          (matchResumesToJob st).effects =
            .setLoading true :: (processFiles st.jobDescription st.resumeFiles).1
              ++ [.setMatches top, .setLoading false] ∧
          (matchResumesToJob st).state.storedMatches = top ∧
          top.length = min st.topCount st.resumeFiles.length) ∧
      ((2 ≤ results.length ∧ results.any scoreThrows = true) →
        (matchResumesToJob st).effects =
          .setLoading true :: (processFiles st.jobDescription st.resumeFiles).1 ++
            [.consoleError "Error matching resumes:",
             .alert "Error processing resumes. Please try again.", .setLoading false] ∧
        (matchResumesToJob st).state.storedMatches = st.storedMatches) := by
  obtain ⟨results, hres, hall⟩ := processFiles_settled st.jobDescription st.resumeFiles hsettled
  have hlen : results.length = st.resumeFiles.length := hall.length_eq.symm
  have hloop := processFiles_eta st.jobDescription st.resumeFiles results hres
  refine ⟨results, hres, hall, hlen, ?_, ?_⟩
  · intro hok
    obtain ⟨top, htop, htoplen⟩ := rankedMatches_length results st.topCount hok
    refine ⟨top, ?_, ?_, by rw [htoplen, hlen]⟩
    · rw [matchResumesToJob_of_ranked st _ results top hjob hn hloop htop]
    · rw [matchResumesToJob_of_ranked st _ results top hjob hn hloop htop]
  · rintro ⟨h2, hthrow⟩
    have hnone : rankedMatches results st.topCount = none := by
      simp [rankedMatches, sortResults_eq_none results h2 hthrow]
    rw [matchResumesToJob_of_throw st _ results hjob hn hloop hnone]
    exact ⟨rfl, rfl⟩

/-- The amended C2 at two files, one with an unparseable reply and one with a response that
is not ok, and `topCount` 1. -/
theorem one_result_per_file_and_top_count_witness :
    ∃ results,
      (processFiles "Seeking lab intern"
        [{ name := "a.txt", read := .loaded "cv a", oracle := .replied "not json" },
         { name := "b.txt", read := .threw, oracle := .notOk (1 / 2) }]).2 = some results ∧
      List.Forall₂ (fun f r => (processFile "Seeking lab intern" f).2 = some r)
        [{ name := "a.txt", read := .loaded "cv a", oracle := .replied "not json" },
         { name := "b.txt", read := .threw, oracle := .notOk (1 / 2) }] results ∧
      results.length = 2 ∧
      ((results.length < 2 ∨ results.any scoreThrows = false) →
        ∃ top,
          (matchResumesToJob
            { jobDescription := "Seeking lab intern"
              resumeFiles :=
                [{ name := "a.txt", read := .loaded "cv a", oracle := .replied "not json" },
                 { name := "b.txt", read := .threw, oracle := .notOk (1 / 2) }]
              storedMatches := []
              loading := false
              topCount := 1 }).effects =
            .setLoading true :: (processFiles "Seeking lab intern"
              [{ name := "a.txt", read := .loaded "cv a", oracle := .replied "not json" },
               { name := "b.txt", read := .threw, oracle := .notOk (1 / 2) }]).1
              ++ [.setMatches top, .setLoading false] ∧
          (matchResumesToJob
            { jobDescription := "Seeking lab intern"
              resumeFiles :=
                [{ name := "a.txt", read := .loaded "cv a", oracle := .replied "not json" },
                 { name := "b.txt", read := .threw, oracle := .notOk (1 / 2) }]
              storedMatches := []
              loading := false
              topCount := 1 }).state.storedMatches = top ∧
          top.length = min 1 2) ∧
      ((2 ≤ results.length ∧ results.any scoreThrows = true) →
        (matchResumesToJob
            { jobDescription := "Seeking lab intern"
              resumeFiles :=
                [{ name := "a.txt", read := .loaded "cv a", oracle := .replied "not json" },
                 { name := "b.txt", read := .threw, oracle := .notOk (1 / 2) }]
              storedMatches := []
              loading := false
              topCount := 1 }).effects =
          .setLoading true :: (processFiles "Seeking lab intern"
              [{ name := "a.txt", read := .loaded "cv a", oracle := .replied "not json" },
               { name := "b.txt", read := .threw, oracle := .notOk (1 / 2) }]).1 ++
            [.consoleError "Error matching resumes:",
             .alert "Error processing resumes. Please try again.", .setLoading false] ∧
        (matchResumesToJob
            { jobDescription := "Seeking lab intern"
              resumeFiles :=
                [{ name := "a.txt", read := .loaded "cv a", oracle := .replied "not json" },
                 { name := "b.txt", read := .threw, oracle := .notOk (1 / 2) }]
              storedMatches := []
              loading := false
              topCount := 1 }).state.storedMatches = []) :=
  one_result_per_file_and_top_count
    { jobDescription := "Seeking lab intern"
      resumeFiles :=
        [{ name := "a.txt", read := .loaded "cv a", oracle := .replied "not json" },
         { name := "b.txt", read := .threw, oracle := .notOk (1 / 2) }]
      storedMatches := []
      loading := false
      topCount := 1 }
    (by decide) (by decide) (by
      intro f hf
      simp only [List.mem_cons, List.mem_singleton, List.not_mem_nil, or_false] at hf
      rcases hf with h | h <;> subst h <;> exact ⟨by simp, by simp⟩)

/-! ### The option "All students" -/

/-- The score of a fallback result is a number: its coercion does not throw. -/
theorem scoreThrows_serviceUnavailable (fileName : String) (r : ℚ) :
    scoreThrows (serviceUnavailable fileName r) = false := rfl

/-- The files of the run below: a thousand uploads, each answered with a status that is
not ok. -/
theorem thousand_files_results :
    (processFiles "Seeking lab intern"
      (List.replicate 1000
        { name := "resume.txt", read := .loaded "cv", oracle := .notOk 0 })).2
      = some (List.replicate 1000 (serviceUnavailable "resume.txt" 0)) := by
  have h : ∀ n : Nat,
      (processFiles "Seeking lab intern"
        (List.replicate n
          { name := "resume.txt", read := .loaded "cv", oracle := .notOk 0 })).2
        = some (List.replicate n (serviceUnavailable "resume.txt" 0)) := by
    intro n
    induction n with
    | zero => rfl
    | succ k ih =>
      rw [List.replicate_succ,
        processFiles_cons_some "Seeking lab intern"
          { name := "resume.txt", read := .loaded "cv", oracle := .notOk 0 } _
          (serviceUnavailable "resume.txt" 0) rfl]
      simp only [ih, Option.map_some', List.replicate_succ]
  exact h 1000

/-- C3 at its failing input: with the option "All students" (`topCount` 999) and 1000
uploaded files, each of which gets a result, the list handed to `setMatches` and stored has
999 elements, not 1000. -/
theorem all_students_truncates_at_999 :
    (List.replicate 1000
      ({ name := "resume.txt", read := .loaded "cv", oracle := .notOk 0 } : ResumeFile)).length
      = 1000 ∧
    (matchResumesToJob
      { jobDescription := "Seeking lab intern"
        resumeFiles := List.replicate 1000
          { name := "resume.txt", read := .loaded "cv", oracle := .notOk 0 }
        storedMatches := []
        loading := false
        topCount := 999 }).state.storedMatches.length = 999 ∧
    (matchResumesToJob
      { jobDescription := "Seeking lab intern"
        resumeFiles := List.replicate 1000
          { name := "resume.txt", read := .loaded "cv", oracle := .notOk 0 }
        storedMatches := []
        loading := false
        topCount := 999 }).returned = true := by
  have hres := thousand_files_results
  have hloop := processFiles_eta _ _ _ hres
  have hok : (List.replicate 1000 (serviceUnavailable "resume.txt" 0)).length < 2 ∨
      (List.replicate 1000 (serviceUnavailable "resume.txt" 0)).any scoreThrows = false := by
    right
    rw [List.any_eq_false]
    intro r hr
    rw [List.eq_of_mem_replicate hr]
    simp [scoreThrows_serviceUnavailable]
  obtain ⟨top, htop, hlen⟩ := rankedMatches_length _ 999 hok
  have hrun := matchResumesToJob_of_ranked
    { jobDescription := "Seeking lab intern"
      resumeFiles := List.replicate 1000
        { name := "resume.txt", read := .loaded "cv", oracle := .notOk 0 }
      storedMatches := []
      loading := false
      topCount := 999 } _ _ top (by decide)
    (by
      show 1 ≤ (List.replicate 1000 (_ : ResumeFile)).length
      rw [List.length_replicate]
      omega) hloop htop
  rw [hrun]
  refine ⟨List.length_replicate _ _, ?_, rfl⟩
  show top.length = 999
  rw [hlen, List.length_replicate]
  rfl

end ResumeMatcher
